import Mathlib

/-!
Shallow embedding of the Coeus agent core (src/ai_logic of the Coeus
repository): the tool registry and parallel dispatcher (tools.py), the
conversation-memory session lifecycle (memory.py), the rolling history and
agent turn loop (CoeusModel.py), and the document chunker (rag.py).

External collaborators (the ollama inference service, the chroma vector
stores, the embedding model, wall-clock time) are modelled as explicit
parameters: the inference service as an oracle giving the response to the
i-th call of a turn, time as a natural number of seconds.
-/

/-- A JSON-like value, the payload type flowing through tool handlers and
tool results (Python `Any` restricted to the JSON shapes the code builds:
strings, integers, null, and objects). `obj` models a Python dict as an
ordered association list, matching dict insertion order. -/
inductive Value where
  | null : Value
  | str : String → Value
  | num : Int → Value
  | obj : List (String × Value) → Value

/-- The structured error object `{"error": msg}` built by
`ToolRegistry.execute_tool` (tools.py lines 79 and 84). -/
def errObj (msg : String) : Value :=
  Value.obj [("error", Value.str msg)]

/-- `json.dumps(result, default=str)` as used on tool results in
`Coeus._process_tool_calls` (CoeusModel.py line 94), modelled as a plain
JSON renderer. Only the shape matters to the claims, never the text. -/
def Value.dumps : Value → String
  | Value.null => "null"
  | Value.str s => "\"" ++ s ++ "\""
  | Value.num n => toString n
  | Value.obj fields => "\x7b" ++ String.intercalate ", " (dumpFields fields) ++ "\x7d"
where
  dumpFields : List (String × Value) → List String
    | [] => []
    | (k, v) :: rest => ("\"" ++ k ++ "\": " ++ v.dumps) :: dumpFields rest

/-- A registered tool (tools.py `Tool` dataclass). The handler
(`function`) is modelled as a Lean function from the decoded argument
mapping to `Except String Value`: `Except.error e` models the handler
raising an exception with message `str(e)`; `Except.ok v` models a normal
return. `to_ollama_format` is schema plumbing with no bearing on any claim
and is not modelled. -/
structure Tool where
  name : String
  description : String
  parameters : List (String × Value)
  function : List (String × Value) → Except String Value
  required : List String

/-- A tool call as consumed by the dispatcher: tool name plus decoded
argument mapping. In the source the arguments may arrive JSON-serialized
and are decoded with `json.loads` before dispatch (tools.py lines 93-94,
CoeusModel.py lines 76-77); the embedding takes the decoded mapping, as
every claim concerns decodable arguments. -/
structure ToolCall where
  name : String
  arguments : List (String × Value)

/-- The tool registry (tools.py `ToolRegistry`): the Python dict
`self._tools` modelled as an ordered association list with dict-update
semantics. The thread pool `self._executor` is a scheduling resource, not
state observable through results; see `execute_tools_parallel`. -/
structure ToolRegistry where
  tools : List (String × Tool)

/-- Python dict assignment `d[name] = v` on the association-list model:
replace in place if the key is present (dict keeps the key's original
position), otherwise append. -/
def dictInsert {α : Type} (rs : List (String × α)) (n : String) (v : α) :
    List (String × α) :=
  if rs.any (fun p => p.1 == n) then
    rs.map (fun p => if p.1 == n then (n, v) else p)
  else rs ++ [(n, v)]

/-- `ToolRegistry.add_tool` (tools.py lines 38-53): build the `Tool` record
and assign it under its name, replacing any existing tool of that name. -/
def ToolRegistry.add_tool (reg : ToolRegistry) (name description : String)
    (parameters : List (String × Value))
    (function : List (String × Value) → Except String Value)
    (required : List String) : ToolRegistry :=
  ⟨dictInsert reg.tools name ⟨name, description, parameters, function, required⟩⟩

/-- `ToolRegistry.get_tool` (tools.py lines 67-68): `self._tools.get(name)`. -/
def ToolRegistry.get_tool (reg : ToolRegistry) (name : String) : Option Tool :=
  (reg.tools.find? (fun p => p.1 == name)).map (fun p => p.2)

/-- `ToolRegistry.has_tools` (tools.py lines 108-109): `len(self._tools) > 0`. -/
def ToolRegistry.has_tools (reg : ToolRegistry) : Bool :=
  decide (0 < reg.tools.length)

/-- `ToolRegistry.list_tools` (tools.py lines 111-112): the dict's keys in
order. -/
def ToolRegistry.list_tools (reg : ToolRegistry) : List String :=
  reg.tools.map (fun p => p.1)

/-- `ToolRegistry.execute_tool` (tools.py lines 76-84): unknown name gives
the structured error `{"error": "Tool '<name>' not found"}`; a handler
exception is caught and converted to `{"error": str(e)}`; a normal return
passes through. -/
def ToolRegistry.execute_tool (reg : ToolRegistry) (name : String)
    (arguments : List (String × Value)) : Value :=
  match reg.get_tool name with
  | none => errObj ("Tool \x27" ++ name ++ "\x27 not found")
  | some t =>
    match t.function arguments with
    | Except.ok v => v
    | Except.error e => errObj e

/-- `ToolRegistry.execute_tools_parallel` (tools.py lines 86-106): every
call is submitted to the worker pool and the results dict is written as
`results[name] = future.result()` keyed by tool NAME as the futures
complete. The embedding runs the joins in submission order: which of two
same-named calls' results survives the dict collision depends on completion
order in the source and is not claimed by any property proved here, while
the key set and its size are completion-order independent. `execute_tool`
never raises, so the `except` branch at lines 103-104 is dead. -/
def ToolRegistry.execute_tools_parallel (reg : ToolRegistry)
    (tool_calls : List ToolCall) : List (String × Value) :=
  tool_calls.foldl
    (fun results call =>
      dictInsert results call.name (reg.execute_tool call.name call.arguments))
    []

/-- One record in the conversation memory store (memory.py `add_memory`
metadata, lines 63-69). Timestamps are modelled as natural numbers of
seconds; session ids as natural numbers drawn from a fresh-id counter
(the source derives them from wall clock plus a random uuid suffix,
memory.py line 24 — the counter models that freshly minted ids differ
from all earlier ones). The embedding text and vector-store id are
external and carry no claim content. -/
structure MemRecord where
  user_message : String
  assistant_response : String
  timestamp : Nat
  session_id : Nat
  message_index : Nat
deriving DecidableEq, Repr

/-- The session-lifecycle state of `ConversationMemory` (memory.py lines
11-24): the inactivity timeout (stored in seconds; the constructor takes
minutes), the timestamp of the last recorded turn, the current session id,
the fresh-id supply, and the stored records (the chroma collection
restricted to what the claims observe). -/
structure ConversationMemory where
  sessionTimeout : Nat
  lastMessageTime : Option Nat
  currentSessionId : Nat
  freshCounter : Nat
  records : List MemRecord

/-- The `ConversationMemory` constructor (memory.py lines 12-21):
`session_timeout_minutes` defaults to 30; `_last_message_time = None`; the
initial session id is minted by `_generate_session_id()` (id 0 here, with
the fresh counter advanced past it). -/
def mkMemory (session_timeout_minutes : Nat) : ConversationMemory :=
  { sessionTimeout := session_timeout_minutes * 60
  , lastMessageTime := none
  , currentSessionId := 0
  , freshCounter := 1
  , records := [] }

/-- `ConversationMemory._check_session_timeout` (memory.py lines 26-34):
no-op when no turn was recorded yet; otherwise mint a new session id
exactly when `now - last > timeout` (strict). Returns the updated state
and whether a new session started. -/
def ConversationMemory.checkSessionTimeout (m : ConversationMemory)
    (now : Nat) : ConversationMemory × Bool :=
  match m.lastMessageTime with
  | none => (m, false)
  | some t =>
    if m.sessionTimeout < now - t then
      ({ m with currentSessionId := m.freshCounter
               , freshCounter := m.freshCounter + 1 }, true)
    else (m, false)

/-- `ConversationMemory._get_session_message_count` (memory.py lines
75-80): the number of stored records tagged with the given session id. -/
def sessionMessageCount (records : List MemRecord) (sess : Nat) : Nat :=
  (records.filter (fun r => r.session_id == sess)).length

/-- `ConversationMemory.add_memory` (memory.py lines 47-73): run the
timeout check first, tag the record with the explicit session id if one is
passed and the current session id otherwise, store it with its best-effort
ordinal, and update the last-message time to `now`. -/
def ConversationMemory.add_memory (m : ConversationMemory) (now : Nat)
    (user_message assistant_response : String) (session_id : Option Nat) :
    ConversationMemory :=
  let m1 := (m.checkSessionTimeout now).1
  let session := session_id.getD m1.currentSessionId
  let record : MemRecord :=
    { user_message := user_message
    , assistant_response := assistant_response
    , timestamp := now
    , session_id := session
    , message_index := sessionMessageCount m1.records session }
  { m1 with records := m1.records ++ [record], lastMessageTime := some now }

/-- `ConversationMemory.start_new_session` (memory.py lines 36-39). -/
def ConversationMemory.start_new_session (m : ConversationMemory) :
    ConversationMemory :=
  { m with currentSessionId := m.freshCounter
         , freshCounter := m.freshCounter + 1
         , lastMessageTime := none }

/-- One entry of the message lists flowing through the turn loop: history
entries `{"role", "content"}` (CoeusModel.py line 32) carry
`tool_calls = []`; the synthetic assistant messages built in
`_process_tool_calls` (lines 87-91) carry their single call there. -/
structure Message where
  role : String
  content : String
  tool_calls : List ToolCall

/-- Python `lst[-k:]` for a natural `k`: the last `k` elements — except
that `k = 0` gives `lst[-0:] = lst[0:]`, the WHOLE list, not the empty
one. This quirk is load-bearing for the history–cap claim. -/
def pyTakeLast {α : Type} (l : List α) (k : Nat) : List α :=
  if k = 0 then l else l.drop (l.length - k)

/-- `Coeus._add_to_history` (CoeusModel.py lines 31-34) acting on the
history list: append the entry, then if the length exceeds
`max_history_turns * 2` keep `history[-max_history_turns * 2:]`. -/
def addToHistory (history : List Message) (max_history_turns : Nat)
    (role content : String) : List Message :=
  let h := history ++ [⟨role, content, []⟩]
  if max_history_turns * 2 < h.length then pyTakeLast h (max_history_turns * 2)
  else h

/-- One document chunk (rag.py `_chunk_text`, lines 57-63). -/
structure Chunk where
  text : String
  source : String
  chunk_index : Nat
  start_word : Nat
  end_word : Nat

/-- Python `str.split()` with no separator: split on whitespace runs and
drop empty pieces. Modelled directly by structural recursion over the
character list, `cur` holding the current word reversed. -/
def pySplitAux : List Char → List Char → List String
  | [], cur => if cur.isEmpty then [] else [String.mk cur.reverse]
  | c :: rest, cur =>
    if c.isWhitespace then
      if cur.isEmpty then pySplitAux rest []
      else String.mk cur.reverse :: pySplitAux rest []
    else pySplitAux rest (c :: cur)

/-- `text.split()` (rag.py line 48). -/
def pySplit (s : String) : List String :=
  pySplitAux s.toList []

/-- The `while start < len(words)` loop of `DocumentRAG._chunk_text`
(rag.py lines 50-67), given fuel for structural recursion. Each pass takes
`words[start:start + chunk_size]`, records the chunk with its index
(`len(chunks)`), `start_word` and `end_word = min(start + chunk_size,
len(words))`, then advances `start` by `chunk_size - chunk_overlap`. When
`chunk_overlap < chunk_size` the advance is at least one word, so the
source loop terminates and fuel `words.length` is never exhausted
(`chunkFromFuel_fuel_stable` below); when `chunk_overlap ≥ chunk_size` the
source loop never advances and never terminates, which the fuelled model
truncates — every claim about the chunker assumes the strict inequality. -/
def chunkFromFuel (words : List String) (source : String)
    (chunk_size chunk_overlap : Nat) :
    Nat → Nat → List Chunk → List Chunk
  | 0, _, acc => acc
  | fuel + 1, start, acc =>
    if start < words.length then
      let ed := start + chunk_size
      let chunk_words := (words.drop start).take chunk_size
      let c : Chunk :=
        { text := String.intercalate " " chunk_words
        , source := source
        , chunk_index := acc.length
        , start_word := start
        , end_word := min ed words.length }
      chunkFromFuel words source chunk_size chunk_overlap fuel
        (start + (chunk_size - chunk_overlap)) (acc ++ [c])
    else acc

/-- `DocumentRAG._chunk_text` (rag.py lines 47-67): split the text into
words and run the chunking loop from `start = 0` with an empty chunk
list. -/
def chunk_text (text source : String) (chunk_size chunk_overlap : Nat) :
    List Chunk :=
  chunkFromFuel (pySplit text) source chunk_size chunk_overlap
    (pySplit text).length 0 []

/-- The default chunking configuration (rag.py lines 22-23). -/
def defaultChunkSize : Nat := 500

/-- The default chunk overlap (rag.py lines 22-23). -/
def defaultChunkOverlap : Nat := 50

/-- The message object of a non-streaming inference response
(`response.get("message", {})`, CoeusModel.py line 130): an optional list
of tool calls and a content string. A missing or empty `tool_calls` field
and a missing `content` field are both falsy in the source, so `[]` and
`""` model absence. -/
structure ModelMessage where
  tool_calls : List ToolCall
  content : String

/-- The external inference service (`ollama.chat`) for one turn of `chat`,
modelled as an oracle. `respond i` is the outcome of the i-th
NON-STREAMING call of the turn: `Except.error e` models the call raising
an exception, `Except.ok m` a returned response with message `m`.
`streamDelivered`/`streamRaised` model the one streaming call of the
no-tools branch: the chunks the stream yields before it either ends
normally (`streamRaised = none`) or raises mid-iteration. `systemPrompt`
models `_build_system_prompt` (CoeusModel.py lines 36-52), which reads the
external retrieval stores but never writes orchestrator state; its output
text is opaque to every claim. -/
structure InferenceEnv where
  respond : Nat → Except String ModelMessage
  streamDelivered : List String
  streamRaised : Option String
  systemPrompt : String → String

/-- The orchestrator state of `Coeus` (CoeusModel.py lines 12-23)
restricted to the fields the turn loop reads or writes: the tool registry,
the rolling conversation history with its cap parameter, and the
conversation memory. The RAG store is reached only through
`_build_system_prompt`, modelled opaquely in `InferenceEnv`. -/
structure Coeus where
  tools : ToolRegistry
  conversation_history : List Message
  max_history_turns : Nat
  memory : ConversationMemory

/-- What one call of the generator `Coeus.chat` does, observed whole:
the content chunks yielded to the caller in order, the orchestrator state
when the generator finishes or the exception escapes, the escaped
exception message if any, and how many streaming/non-streaming inference
calls were issued. -/
structure ChatResult where
  chunks : List String
  state : Coeus
  raised : Option String
  streamingCalls : Nat
  nonStreamingCalls : Nat

/-- `Coeus._process_tool_calls` (CoeusModel.py lines 70-97): dispatch the
whole batch through the registry, then for each original call append one
synthetic assistant message holding that single call and one tool message
holding the JSON-dumped result looked up BY NAME in the batch's result
mapping; the `{"error": "Tool not found"}` default at line 85 fires only
if the name is absent from the mapping (it never is, since every call was
dispatched). The `on_tool_call` observability callback (lines 134-136)
reads but never writes orchestrator state and is not modelled. -/
def processToolCalls (reg : ToolRegistry) (tool_calls : List ToolCall)
    (messages : List Message) : List Message :=
  let results := reg.execute_tools_parallel tool_calls
  tool_calls.foldl
    (fun msgs tc =>
      let result :=
        ((results.find? (fun p => p.1 == tc.name)).map (fun p => p.2)).getD
          (errObj "Tool not found")
      msgs ++
        [ ⟨"assistant", "", [tc]⟩
        , ⟨"tool", result.dumps, []⟩ ])
    messages

/-- The hard-coded iteration cap `max_iterations = 10` (CoeusModel.py
line 108). -/
def max_iterations : Nat := 10

/-- The `for _ in range(max_iterations)` loop of `Coeus.chat` when tools
are registered (CoeusModel.py lines 110-148), fuelled by the remaining
iterations. Each pass issues one non-streaming call (line 112); an
exception from it escapes the generator with no chunk yielded and no
history or memory write. A response whose `tool_calls` is truthy (a
non-empty list) extends `messages` via `_process_tool_calls` and loops.
Otherwise, non-empty content is yielded as the single final chunk, the
assistant turn is appended to history and the exchange recorded in memory
(lines 141-146); empty content returns silently. Exhausted fuel is the
loop completing all passes: the sentinel is yielded (line 148) with no
state change. -/
def chatLoop (env : InferenceEnv) (userMessage : String) (now : Nat)
    (c : Coeus) : Nat → List Message → Nat → ChatResult
  | _, _, 0 =>
    { chunks := ["[Max tool iterations reached]"]
    , state := c, raised := none
    , streamingCalls := 0, nonStreamingCalls := 0 }
  | callIdx, messages, fuel + 1 =>
    match env.respond callIdx with
    | Except.error e =>
      { chunks := [], state := c, raised := some e
      , streamingCalls := 0, nonStreamingCalls := 1 }
    | Except.ok msg =>
      if msg.tool_calls.isEmpty then
        if msg.content == "" then
          { chunks := [], state := c, raised := none
          , streamingCalls := 0, nonStreamingCalls := 1 }
        else
          { chunks := [msg.content]
          , state :=
              { c with
                conversation_history :=
                  addToHistory c.conversation_history c.max_history_turns
                    "assistant" msg.content
              , memory :=
                  c.memory.add_memory now userMessage msg.content none }
          , raised := none
          , streamingCalls := 0, nonStreamingCalls := 1 }
      else
        let messages2 := processToolCalls c.tools msg.tool_calls messages
        let r := chatLoop env userMessage now c (callIdx + 1) messages2 fuel
        { r with nonStreamingCalls := r.nonStreamingCalls + 1 }

/-- `Coeus.chat` (CoeusModel.py lines 99-148). The user turn is appended
to the rolling history BEFORE any inference call (line 102); the message
list is the system prompt followed by the history after that append
(lines 104-105). With tools registered (`ollama_tools` truthy, line 107)
every iteration issues a non-streaming call and the loop above runs; with
no tools the first iteration issues the single streaming call, yields its
chunks as they arrive, and on normal stream end appends the accumulated
text as the assistant turn and records the memory (lines 119-128) — a
stream that raises mid-iteration escapes after the already-delivered
chunks with no history or memory write. -/
def Coeus.chat (c : Coeus) (env : InferenceEnv) (message : String)
    (now : Nat) : ChatResult :=
  let cUser : Coeus :=
    { c with
      conversation_history :=
        addToHistory c.conversation_history c.max_history_turns
          "user" message }
  let messages : List Message :=
    ⟨"system", env.systemPrompt message, []⟩ :: cUser.conversation_history
  if cUser.tools.has_tools then
    chatLoop env message now cUser 0 messages max_iterations
  else
    match env.streamRaised with
    | some e =>
      { chunks := env.streamDelivered, state := cUser, raised := some e
      , streamingCalls := 1, nonStreamingCalls := 0 }
    | none =>
      let full_response := String.join env.streamDelivered
      { chunks := env.streamDelivered
      , state :=
          { cUser with
            conversation_history :=
              addToHistory cUser.conversation_history cUser.max_history_turns
                "assistant" full_response
          , memory :=
              cUser.memory.add_memory now message full_response none }
      , raised := none
      , streamingCalls := 1, nonStreamingCalls := 0 }

/-- A non-streaming response that makes the loop continue: a returned
message whose `tool_calls` field is truthy (a non-empty list),
CoeusModel.py line 133. -/
def isToolResp (resp : Except String ModelMessage) : Prop :=
  ∃ m, resp = Except.ok m ∧ m.tool_calls ≠ []

/-- What one loop iteration does to the observable outcome when its
non-streaming response does NOT carry tool calls (the exits at
CoeusModel.py lines 112 (raise), 141-146 (final content or silent
return)): used to state the loop lemmas below uniformly over the three
exits. -/
def finalStep (resp : Except String ModelMessage) (c : Coeus)
    (userMessage : String) (now : Nat) : ChatResult :=
  match resp with
  | Except.error e =>
    { chunks := [], state := c, raised := some e
    , streamingCalls := 0, nonStreamingCalls := 1 }
  | Except.ok msg =>
    if msg.content == "" then
      { chunks := [], state := c, raised := none
      , streamingCalls := 0, nonStreamingCalls := 1 }
    else
      { chunks := [msg.content]
      , state :=
          { c with
            conversation_history :=
              addToHistory c.conversation_history c.max_history_turns
                "assistant" msg.content
          , memory := c.memory.add_memory now userMessage msg.content none }
      , raised := none
      , streamingCalls := 0, nonStreamingCalls := 1 }

/-- A one-tool registry for concrete runs: a tool named "t" whose handler
returns null. -/
def sampleRegistry : ToolRegistry :=
  ⟨[("t", ⟨"t", "d", [], fun _ => Except.ok Value.null, []⟩)]⟩

/-- A concrete orchestrator state: the sample registry, empty history, the
default history cap of 10 turns, and a fresh memory with the default
30-minute timeout. -/
def sampleCoeus : Coeus :=
  ⟨sampleRegistry, [], 10, mkMemory 30⟩

/-- An inference service whose every non-streaming response carries one
tool call (to "t" with no arguments). -/
def envAlwaysTool : InferenceEnv :=
  ⟨fun _ => Except.ok ⟨[⟨"t", []⟩], ""⟩, [], none, fun _ => ""⟩

/-- An inference service that raises "boom" on every non-streaming call. -/
def envError : InferenceEnv :=
  ⟨fun _ => Except.error "boom", [], none, fun _ => ""⟩

/-- An inference service whose every non-streaming response is a final
message with content "hello" and no tool calls. -/
def envContent : InferenceEnv :=
  ⟨fun _ => Except.ok ⟨[], "hello"⟩, [], none, fun _ => ""⟩

/-- An inference service whose every non-streaming response is a final
message with EMPTY content and no tool calls. -/
def envEmpty : InferenceEnv :=
  ⟨fun _ => Except.ok ⟨[], ""⟩, [], none, fun _ => ""⟩

/-- A three-tool registry for a concrete batch run: "a" and "c" succeed,
"b" raises "boom". -/
def sampleBatchRegistry : ToolRegistry :=
  ⟨[ ("a", ⟨"a", "", [], fun _ => Except.ok (Value.str "ra"), []⟩)
   , ("b", ⟨"b", "", [], fun _ => Except.error "boom", []⟩)
   , ("c", ⟨"c", "", [], fun _ => Except.ok (Value.str "rc"), []⟩)]⟩

/-! ### Key structure of the dispatcher's result mapping -/

/-- Dict assignment leaves the key list unchanged when the key is present
and appends the key otherwise. -/
theorem dictInsert_keys {α : Type} (rs : List (String × α)) (n : String)
    (v : α) :
    (dictInsert rs n v).map Prod.fst =
      if n ∈ rs.map Prod.fst then rs.map Prod.fst
      else rs.map Prod.fst ++ [n] := by
  have hmem : rs.any (fun p => p.1 == n) = true ↔ n ∈ rs.map Prod.fst := by
    rw [List.any_eq_true]
    constructor
    · rintro ⟨p, hp, he⟩
      exact List.mem_map.mpr ⟨p, hp, beq_iff_eq.mp he⟩
    · rintro hn
      rcases List.mem_map.mp hn with ⟨p, hp, he⟩
      exact ⟨p, hp, beq_iff_eq.mpr he⟩
  unfold dictInsert
  by_cases h : n ∈ rs.map Prod.fst
  · rw [if_pos (hmem.mpr h), if_pos h, List.map_map]
    apply List.map_congr_left
    intro p _
    by_cases hpn : p.1 == n
    · simp only [Function.comp, hpn, if_pos]
      exact (beq_iff_eq.mp hpn).symm
    · simp only [Function.comp, hpn]
      simp
  · rw [if_neg (fun hc => h (hmem.mp hc)), if_neg h, List.map_append]
    rfl

/-- Folding the dispatcher's per-join dict writes over a batch keeps the
key list duplicate-free and makes its members exactly the starting keys
together with the batch's tool names. -/
theorem dispatch_fold_keys (reg : ToolRegistry) :
    ∀ (calls : List ToolCall) (rs : List (String × Value)),
    (rs.map Prod.fst).Nodup →
    (((calls.foldl
        (fun results call =>
          dictInsert results call.name
            (reg.execute_tool call.name call.arguments)) rs).map
          Prod.fst).Nodup ∧
      ∀ n, n ∈ (calls.foldl
        (fun results call =>
          dictInsert results call.name
            (reg.execute_tool call.name call.arguments)) rs).map Prod.fst ↔
          n ∈ rs.map Prod.fst ∨ n ∈ calls.map ToolCall.name) := by
  intro calls
  induction calls with
  | nil =>
    intro rs hrs
    refine ⟨hrs, fun n => ?_⟩
    simp
  | cons call calls ih =>
    intro rs hrs
    rw [List.foldl_cons]
    set rs2 := dictInsert rs call.name
      (reg.execute_tool call.name call.arguments) with hrs2
    have hkeys := dictInsert_keys rs call.name
      (reg.execute_tool call.name call.arguments)
    by_cases h : call.name ∈ rs.map Prod.fst
    · rw [if_pos h] at hkeys
      have hnodup2 : (rs2.map Prod.fst).Nodup := by rw [hrs2, hkeys]; exact hrs
      rcases ih rs2 hnodup2 with ⟨hnd, hmem⟩
      refine ⟨hnd, fun n => ?_⟩
      rw [hmem n, hrs2, hkeys]
      simp only [List.map_cons, List.mem_cons]
      constructor
      · rintro (hn | hn)
        · exact Or.inl hn
        · exact Or.inr (Or.inr hn)
      · rintro (hn | hn | hn)
        · exact Or.inl hn
        · exact Or.inl (hn ▸ h)
        · exact Or.inr hn
    · rw [if_neg h] at hkeys
      have hnodup2 : (rs2.map Prod.fst).Nodup := by
        rw [hrs2, hkeys]
        simp only [List.nodup_append, List.nodup_cons, List.nodup_nil]
        refine ⟨hrs, by simp, ?_⟩
        intro a ha hb
        simp only [List.mem_singleton] at hb
        exact h (hb ▸ ha)
      rcases ih rs2 hnodup2 with ⟨hnd, hmem⟩
      refine ⟨hnd, fun n => ?_⟩
      rw [hmem n, hrs2, hkeys]
      simp only [List.mem_append, List.mem_singleton, List.map_cons,
        List.mem_cons]
      tauto

/-- C4: for every batch passed to `execute_tools_parallel`, the result
mapping is keyed by tool name: its key list is duplicate-free, a name is a
key exactly when it names some call of the batch, and the mapping's size
is the number of DISTINCT tool names in the batch — so two same-named
calls collide and exactly one result per distinct name survives, and the
size is not the number of calls when names repeat. -/
theorem dispatchBatch_keyed_by_name (reg : ToolRegistry)
    (calls : List ToolCall) :
    ((reg.execute_tools_parallel calls).map Prod.fst).Nodup ∧
    (∀ n, n ∈ (reg.execute_tools_parallel calls).map Prod.fst ↔
        n ∈ calls.map ToolCall.name) ∧
    (reg.execute_tools_parallel calls).length =
      (calls.map ToolCall.name).toFinset.card := by
  rcases dispatch_fold_keys reg calls [] (by simp) with ⟨hnd, hmem⟩
  have hnd2 : ((reg.execute_tools_parallel calls).map Prod.fst).Nodup := hnd
  have hmem2 : ∀ n,
      n ∈ (reg.execute_tools_parallel calls).map Prod.fst ↔
        n ∈ calls.map ToolCall.name := by
    intro n
    rw [ToolRegistry.execute_tools_parallel, hmem n]
    simp
  refine ⟨hnd2, hmem2, ?_⟩
  have h1 : (reg.execute_tools_parallel calls).length =
      ((reg.execute_tools_parallel calls).map Prod.fst).length := by
    rw [List.length_map]
  rw [h1, ← List.toFinset_card_of_nodup hnd2]
  congr 1
  apply Finset.ext
  intro n
  simp only [List.mem_toFinset]
  exact hmem2 n

/-- C5: a batch of three calls with distinct registered names in which
exactly one handler raises — whichever of the three it is — yields the
mapping holding the two successful results and the one structured error
entry `{"error": message}` in the raiser's position; `execute_tool`
catches the exception per call, so nothing escapes the batch and the
siblings' results are unaffected. -/
theorem dispatchBatch_one_failure_isolated (reg : ToolRegistry)
    (c1 c2 c3 : ToolCall) (t1 t2 t3 : Tool) (va vb : Value) (em : String)
    (h12 : c1.name ≠ c2.name) (h13 : c1.name ≠ c3.name)
    (h23 : c2.name ≠ c3.name)
    (hg1 : reg.get_tool c1.name = some t1)
    (hg2 : reg.get_tool c2.name = some t2)
    (hg3 : reg.get_tool c3.name = some t3)
    (hone :
      (t1.function c1.arguments = Except.error em ∧
        t2.function c2.arguments = Except.ok va ∧
        t3.function c3.arguments = Except.ok vb) ∨
      (t1.function c1.arguments = Except.ok va ∧
        t2.function c2.arguments = Except.error em ∧
        t3.function c3.arguments = Except.ok vb) ∨
      (t1.function c1.arguments = Except.ok va ∧
        t2.function c2.arguments = Except.ok vb ∧
        t3.function c3.arguments = Except.error em)) :
    (t1.function c1.arguments = Except.error em ∧
      reg.execute_tools_parallel [c1, c2, c3] =
        [(c1.name, errObj em), (c2.name, va), (c3.name, vb)]) ∨
    (t2.function c2.arguments = Except.error em ∧
      reg.execute_tools_parallel [c1, c2, c3] =
        [(c1.name, va), (c2.name, errObj em), (c3.name, vb)]) ∨
    (t3.function c3.arguments = Except.error em ∧
      reg.execute_tools_parallel [c1, c2, c3] =
        [(c1.name, va), (c2.name, vb), (c3.name, errObj em)]) := by
  have key : ∀ r1 r2 r3 : Value,
      reg.execute_tool c1.name c1.arguments = r1 →
      reg.execute_tool c2.name c2.arguments = r2 →
      reg.execute_tool c3.name c3.arguments = r3 →
      reg.execute_tools_parallel [c1, c2, c3] =
        [(c1.name, r1), (c2.name, r2), (c3.name, r3)] := by
    intro r1 r2 r3 e1 e2 e3
    simp only [ToolRegistry.execute_tools_parallel, List.foldl_cons,
      List.foldl_nil, e1, e2, e3]
    simp [dictInsert, beq_iff_eq, h12, h13, h23, h12.symm, h13.symm,
      h23.symm]
  rcases hone with ⟨ho1, ho2, ho3⟩ | ⟨ho1, ho2, ho3⟩ | ⟨ho1, ho2, ho3⟩
  · exact Or.inl ⟨ho1, key _ _ _
      (by simp only [ToolRegistry.execute_tool, hg1, ho1])
      (by simp only [ToolRegistry.execute_tool, hg2, ho2])
      (by simp only [ToolRegistry.execute_tool, hg3, ho3])⟩
  · exact Or.inr (Or.inl ⟨ho2, key _ _ _
      (by simp only [ToolRegistry.execute_tool, hg1, ho1])
      (by simp only [ToolRegistry.execute_tool, hg2, ho2])
      (by simp only [ToolRegistry.execute_tool, hg3, ho3])⟩)
  · exact Or.inr (Or.inr ⟨ho3, key _ _ _
      (by simp only [ToolRegistry.execute_tool, hg1, ho1])
      (by simp only [ToolRegistry.execute_tool, hg2, ho2])
      (by simp only [ToolRegistry.execute_tool, hg3, ho3])⟩)

/-- C8 counterexample: executing a call naming the unregistered tool
"ping" returns the structured error whose message interpolates the tool
name, `{"error": "Tool 'ping' not found"}` — NOT the exact payload
`{error: "tool not found"}` the claim states. -/
theorem unknown_tool_exact_payload_counterexample :
    (ToolRegistry.mk []).execute_tool "ping" [] =
      Value.obj [("error", Value.str "Tool \x27ping\x27 not found")] ∧
    (ToolRegistry.mk []).execute_tool "ping" [] ≠
      Value.obj [("error", Value.str "tool not found")] := by
  constructor
  · rfl
  · intro h
    rw [ToolRegistry.execute_tool] at h
    simp only [ToolRegistry.get_tool, List.find?_nil, Option.map] at h
    rw [errObj] at h
    have h2 := congrArg (fun v => match v with
      | Value.obj (("error", Value.str m) :: _) => m
      | _ => "") h
    simp only at h2
    have : ("Tool \x27" ++ "ping" ++ "\x27 not found" : String) ≠
        "tool not found" := by decide
    exact this h2

/-- C8 amended: a call naming an unregistered tool yields the structured
error `{"error": "Tool '<name>' not found"}` (the message interpolates
the requested name) rather than raising. -/
theorem unknown_tool_structured_error (reg : ToolRegistry) (name : String)
    (arguments : List (String × Value)) (h : reg.get_tool name = none) :
    reg.execute_tool name arguments =
      Value.obj
        [("error", Value.str ("Tool \x27" ++ name ++ "\x27 not found"))] := by
  rw [ToolRegistry.execute_tool, h]
  rfl

/-- Witness for `unknown_tool_structured_error` at the empty registry and
the name "ping". -/
theorem unknown_tool_structured_error_witness :
    (ToolRegistry.mk []).get_tool "ping" = none ∧
    (ToolRegistry.mk []).execute_tool "ping" [] =
      Value.obj
        [("error", Value.str ("Tool \x27" ++ "ping" ++ "\x27 not found"))] :=
  ⟨rfl, unknown_tool_structured_error (ToolRegistry.mk []) "ping" [] rfl⟩

/-! ### The rolling history cap -/

/-- Length of the Python slice `l[-k:]` for positive `k`. -/
theorem pyTakeLast_length {α : Type} (l : List α) (k : Nat) (hk : 0 < k) :
    (pyTakeLast l k).length = min l.length k := by
  unfold pyTakeLast
  rw [if_neg (Nat.pos_iff_ne_zero.mp hk), List.length_drop]
  omega

/-- Taking the last `k` again after appending sees through an earlier
truncation to the last `k`. -/
theorem pyTakeLast_append_left {α : Type} (a b : List α) (k : Nat)
    (hk : 0 < k) :
    pyTakeLast (pyTakeLast a k ++ b) k = pyTakeLast (a ++ b) k := by
  have hkne : k ≠ 0 := Nat.pos_iff_ne_zero.mp hk
  unfold pyTakeLast
  rw [if_neg hkne, if_neg hkne, if_neg hkne]
  by_cases h : a.length ≤ k
  · have h0 : a.length - k = 0 := by omega
    rw [h0, List.drop_zero]
  · have hlen : (a.drop (a.length - k)).length = k := by
      rw [List.length_drop]; omega
    rw [List.drop_append_eq_append_drop, List.drop_append_eq_append_drop,
      List.drop_drop, hlen, List.length_append, List.length_append, hlen]
    congr 1
    · congr 1
      omega
    · congr 1
      omega

/-- One source append: `_add_to_history` equals appending then keeping the
last `max_history_turns * 2` entries, whenever the cap is positive. -/
theorem addToHistory_eq_pyTakeLast (h : List Message) (maxT : Nat)
    (hmax : 0 < maxT) (role content : String) :
    addToHistory h maxT role content =
      pyTakeLast (h ++ [⟨role, content, []⟩]) (maxT * 2) := by
  unfold addToHistory
  by_cases hc : maxT * 2 < (h ++ [(⟨role, content, []⟩ : Message)]).length
  · rw [if_pos hc]
  · rw [if_neg hc]
    unfold pyTakeLast
    rw [if_neg (by omega : maxT * 2 ≠ 0)]
    have h0 : (h ++ [(⟨role, content, []⟩ : Message)]).length - maxT * 2 = 0 := by
      omega
    rw [h0, List.drop_zero]

/-- Folding a sequence of appends through `_add_to_history` from a history
already within the cap yields exactly the last `max_history_turns * 2`
entries of the concatenation, whenever the cap is positive. -/
theorem foldHistory_eq (maxT : Nat) (hmax : 0 < maxT) :
    ∀ (es : List (String × String)) (h0 : List Message),
      h0.length ≤ maxT * 2 →
      es.foldl (fun h e => addToHistory h maxT e.1 e.2) h0 =
        pyTakeLast
          (h0 ++ es.map (fun e => (⟨e.1, e.2, []⟩ : Message))) (maxT * 2) := by
  intro es
  induction es with
  | nil =>
    intro h0 hh0
    simp only [List.foldl_nil, List.map_nil, List.append_nil]
    unfold pyTakeLast
    rw [if_neg (by omega : maxT * 2 ≠ 0),
      (by omega : h0.length - maxT * 2 = 0), List.drop_zero]
  | cons e es ih =>
    intro h0 hh0
    rw [List.foldl_cons,
      ih (addToHistory h0 maxT e.1 e.2)
        (by
          rw [addToHistory_eq_pyTakeLast h0 maxT hmax,
            pyTakeLast_length _ _ (by omega)]
          omega),
      addToHistory_eq_pyTakeLast h0 maxT hmax,
      pyTakeLast_append_left _ _ _ (by omega : 0 < maxT * 2)]
    rw [List.map_cons, List.append_assoc]
    rfl

/-- C6 counterexample: with `max_history_turns = 0` the cap is
`2 × 0 = 0`, yet appending one entry (more than 0 entries) to the empty
history leaves a history of length 1, not 0 — because the truncation
slice `history[-0:]` in Python is `history[0:]`, the whole list, so the
claimed bound fails for that configuration. -/
theorem history_cap_counterexample :
    (addToHistory [] 0 "user" "hi").length = 1 ∧
    (addToHistory [] 0 "user" "hi").length ≠ 0 * 2 := by
  constructor
  · rfl
  · decide

/-- C6 amended: provided `max_history_turns ≥ 1`, after folding a
sequence of more than `2 × max_history_turns` appends into a history that
is within the cap, the length equals exactly `2 × max_history_turns`, the
surviving entries are precisely the most recently appended ones in their
original relative order (the tail of the appended sequence, oldest dropped
first, never reordered), and a single append never leaves the history
above the cap. -/
theorem history_cap_holds (maxT : Nat) (hmax : 0 < maxT)
    (h0 : List Message) (hh0 : h0.length ≤ maxT * 2)
    (es : List (String × String)) (hes : maxT * 2 < es.length) :
    (es.foldl (fun h e => addToHistory h maxT e.1 e.2) h0).length =
      maxT * 2 ∧
    es.foldl (fun h e => addToHistory h maxT e.1 e.2) h0 =
      (es.map (fun e => (⟨e.1, e.2, []⟩ : Message))).drop
        (es.length - maxT * 2) ∧
    ∀ (h : List Message) (role content : String),
      (addToHistory h maxT role content).length ≤ maxT * 2 := by
  have hfold := foldHistory_eq maxT hmax es h0 hh0
  have hlen2 :
      (h0 ++ es.map (fun e => (⟨e.1, e.2, []⟩ : Message))).length =
        h0.length + es.length := by
    rw [List.length_append, List.length_map]
  refine ⟨?_, ?_, ?_⟩
  · rw [hfold, pyTakeLast_length _ _ (by omega : 0 < maxT * 2), hlen2]
    omega
  · rw [hfold]
    unfold pyTakeLast
    rw [if_neg (by omega : maxT * 2 ≠ 0), List.drop_append_eq_append_drop]
    have hnil : h0.drop
        ((h0 ++ es.map (fun e => (⟨e.1, e.2, []⟩ : Message))).length -
          maxT * 2) = [] := by
      rw [List.drop_eq_nil_iff, hlen2]
      omega
    rw [hnil, List.nil_append, hlen2]
    congr 1
    omega
  · intro h role content
    rw [addToHistory_eq_pyTakeLast h maxT hmax,
      pyTakeLast_length _ _ (by omega : 0 < maxT * 2)]
    omega

/-- Witness for `history_cap_holds`: cap `2 × 1 = 2`, empty start, three
appends; the cap and the surviving-suffix shape hold as proved. -/
theorem history_cap_holds_witness :
    0 < 1 ∧ ([] : List Message).length ≤ 1 * 2 ∧
    1 * 2 < ([("user", "a"), ("assistant", "b"), ("user", "c")] :
      List (String × String)).length ∧
    (([("user", "a"), ("assistant", "b"), ("user", "c")] :
        List (String × String)).foldl
      (fun h e => addToHistory h 1 e.1 e.2) []).length = 1 * 2 :=
  ⟨by decide, by decide, by decide,
    (history_cap_holds 1 (by decide) [] (by decide)
      [("user", "a"), ("assistant", "b"), ("user", "c")] (by decide)).1⟩

/-! ### Session rollover on inactivity gaps -/

/-- The timeout check before the first recorded turn is a no-op. -/
theorem checkSessionTimeout_none (m : ConversationMemory) (now : Nat)
    (h : m.lastMessageTime = none) :
    m.checkSessionTimeout now = (m, false) := by
  unfold ConversationMemory.checkSessionTimeout
  rw [h]

/-- A gap at or below the timeout keeps the current session. -/
theorem checkSessionTimeout_stay (m : ConversationMemory) (now t : Nat)
    (h : m.lastMessageTime = some t) (hc : now - t ≤ m.sessionTimeout) :
    m.checkSessionTimeout now = (m, false) := by
  have hlt : ¬ m.sessionTimeout < now - t := by omega
  unfold ConversationMemory.checkSessionTimeout
  rw [h]
  simp [hlt]

/-- A gap strictly above the timeout mints a new session id. -/
theorem checkSessionTimeout_rotate (m : ConversationMemory) (now t : Nat)
    (h : m.lastMessageTime = some t) (hc : m.sessionTimeout < now - t) :
    m.checkSessionTimeout now =
      ({ m with currentSessionId := m.freshCounter
              , freshCounter := m.freshCounter + 1 }, true) := by
  unfold ConversationMemory.checkSessionTimeout
  rw [h]
  simp [hc]

/-- The timeout check never changes the timeout, the stored records or
the last-message time. -/
theorem checkSessionTimeout_fields (m : ConversationMemory) (now : Nat) :
    ((m.checkSessionTimeout now).1).sessionTimeout = m.sessionTimeout ∧
    ((m.checkSessionTimeout now).1).records = m.records ∧
    ((m.checkSessionTimeout now).1).lastMessageTime = m.lastMessageTime := by
  rcases hm : m.lastMessageTime with _ | t
  · rw [checkSessionTimeout_none m now hm]
    exact ⟨rfl, rfl, hm⟩
  · by_cases hc : m.sessionTimeout < now - t
    · rw [checkSessionTimeout_rotate m now t hm hc]
      exact ⟨rfl, rfl, hm⟩
    · rw [checkSessionTimeout_stay m now t hm (by omega)]
      exact ⟨rfl, rfl, hm⟩

/-- The timeout check preserves the freshness invariant: the current
session id stays below the fresh-id counter. -/
theorem checkSessionTimeout_inv (m : ConversationMemory) (now : Nat)
    (h : m.currentSessionId < m.freshCounter) :
    ((m.checkSessionTimeout now).1).currentSessionId <
      ((m.checkSessionTimeout now).1).freshCounter := by
  rcases hm : m.lastMessageTime with _ | t
  · rw [checkSessionTimeout_none m now hm]
    exact h
  · by_cases hc : m.sessionTimeout < now - t
    · rw [checkSessionTimeout_rotate m now t hm hc]
      exact Nat.lt_succ_self _
    · rw [checkSessionTimeout_stay m now t hm (by omega)]
      exact h

/-- `add_memory` with no explicit session id, unfolded: the timeout check
runs first, then the record tagged with the (possibly rotated) current
session id is appended and the last-message time set to `now`. -/
theorem add_memory_unfold (m : ConversationMemory) (now : Nat)
    (u a : String) :
    m.add_memory now u a none =
      { (m.checkSessionTimeout now).1 with
        records := (m.checkSessionTimeout now).1.records ++
          [⟨u, a, now, (m.checkSessionTimeout now).1.currentSessionId,
            sessionMessageCount (m.checkSessionTimeout now).1.records
              (m.checkSessionTimeout now).1.currentSessionId⟩]
      , lastMessageTime := some now } := rfl

/-- C7: for two consecutive `add_memory` records (under the freshness
invariant relating the current session id to the fresh-id supply, which
holds for every reachable memory state), a second record whose gap from
the first is at or below the timeout is tagged with the SAME session id
as the first, while a second record whose gap strictly exceeds the
timeout is tagged with a session id minted anew, DIFFERENT from the
first's. The 5-minute / 31-minute instance with the default 30-minute
timeout is the witness below. -/
theorem session_gap_rollover (m : ConversationMemory)
    (hinv : m.currentSessionId < m.freshCounter)
    (t now2 now3 : Nat) (u1 a1 u2 a2 u3 a3 : String)
    (h2 : now2 - t ≤ m.sessionTimeout)
    (h3 : m.sessionTimeout < now3 - t) :
    ∃ r1 r2 r3 : MemRecord,
      (m.add_memory t u1 a1 none).records = m.records ++ [r1] ∧
      ((m.add_memory t u1 a1 none).add_memory now2 u2 a2 none).records =
        (m.add_memory t u1 a1 none).records ++ [r2] ∧
      ((m.add_memory t u1 a1 none).add_memory now3 u3 a3 none).records =
        (m.add_memory t u1 a1 none).records ++ [r3] ∧
      r2.session_id = r1.session_id ∧
      r3.session_id ≠ r1.session_id := by
  obtain ⟨hto1, hrec1, -⟩ := checkSessionTimeout_fields m t
  have hinv1 := checkSessionTimeout_inv m t hinv
  set mc1 := (m.checkSessionTimeout t).1 with hmc1
  set r1 : MemRecord :=
    ⟨u1, a1, t, mc1.currentSessionId,
      sessionMessageCount mc1.records mc1.currentSessionId⟩ with hr1
  have hm1 : m.add_memory t u1 a1 none =
      { mc1 with
        records := mc1.records ++ [r1]
        lastMessageTime := some t } :=
    add_memory_unfold m t u1 a1
  set m1 := m.add_memory t u1 a1 none with hm1d
  have hm1last : m1.lastMessageTime = some t := by rw [hm1]
  have hm1to : m1.sessionTimeout = m.sessionTimeout := by rw [hm1]; exact hto1
  have hstay : m1.checkSessionTimeout now2 = (m1, false) :=
    checkSessionTimeout_stay m1 now2 t hm1last (by rw [hm1to]; exact h2)
  have hrot : m1.checkSessionTimeout now3 =
      ({ m1 with
         currentSessionId := m1.freshCounter
         freshCounter := m1.freshCounter + 1 }, true) :=
    checkSessionTimeout_rotate m1 now3 t hm1last (by rw [hm1to]; exact h3)
  refine ⟨r1,
    ⟨u2, a2, now2, m1.currentSessionId,
      sessionMessageCount m1.records m1.currentSessionId⟩,
    ⟨u3, a3, now3, m1.freshCounter,
      sessionMessageCount m1.records m1.freshCounter⟩, ?_, ?_, ?_, ?_, ?_⟩
  · rw [hm1]
    rw [hrec1]
  · rw [add_memory_unfold m1 now2 u2 a2, hstay]
  · rw [add_memory_unfold m1 now3 u3 a3, hrot]
  · show m1.currentSessionId = mc1.currentSessionId
    rw [hm1]
  · show m1.freshCounter ≠ mc1.currentSessionId
    have hcur : m1.freshCounter = mc1.freshCounter := by rw [hm1]
    rw [hcur]
    omega

/-- Witness for `session_gap_rollover`: a freshly constructed memory with
the default 30-minute timeout, first record at time 0, second records 5
minutes (300 s, within timeout) and 31 minutes (1860 s, beyond timeout)
later. -/
theorem session_gap_rollover_witness :
    (mkMemory 30).currentSessionId < (mkMemory 30).freshCounter ∧
    300 - 0 ≤ (mkMemory 30).sessionTimeout ∧
    (mkMemory 30).sessionTimeout < 1860 - 0 ∧
    ∃ r1 r2 r3 : MemRecord,
      ((mkMemory 30).add_memory 0 "u1" "a1" none).records =
        (mkMemory 30).records ++ [r1] ∧
      (((mkMemory 30).add_memory 0 "u1" "a1" none).add_memory 300 "u2" "a2"
          none).records =
        ((mkMemory 30).add_memory 0 "u1" "a1" none).records ++ [r2] ∧
      (((mkMemory 30).add_memory 0 "u1" "a1" none).add_memory 1860 "u3" "a3"
          none).records =
        ((mkMemory 30).add_memory 0 "u1" "a1" none).records ++ [r3] ∧
      r2.session_id = r1.session_id ∧
      r3.session_id ≠ r1.session_id :=
  ⟨by decide, by decide, by decide,
    session_gap_rollover (mkMemory 30) (by decide) 0 300 1860
      "u1" "a1" "u2" "a2" "u3" "a3" (by decide) (by decide)⟩

/-! ### The document chunker -/

/-- Exhausted fuel returns the accumulated chunks. -/
theorem chunkFromFuel_zero (words : List String) (source : String)
    (size overlap start : Nat) (acc : List Chunk) :
    chunkFromFuel words source size overlap 0 start acc = acc := rfl

/-- The loop stops as soon as `start` reaches the word count. -/
theorem chunkFromFuel_stop (words : List String) (source : String)
    (size overlap fuel start : Nat) (acc : List Chunk)
    (hs : ¬ start < words.length) :
    chunkFromFuel words source size overlap (fuel + 1) start acc = acc := by
  simp [chunkFromFuel, hs]

/-- One loop pass: record the chunk at `start` and advance by
`size - overlap`. -/
theorem chunkFromFuel_step (words : List String) (source : String)
    (size overlap fuel start : Nat) (acc : List Chunk)
    (hs : start < words.length) :
    chunkFromFuel words source size overlap (fuel + 1) start acc =
      chunkFromFuel words source size overlap fuel
        (start + (size - overlap))
        (acc ++ [⟨String.intercalate " " ((words.drop start).take size),
          source, acc.length, start, min (start + size) words.length⟩]) := by
  simp [chunkFromFuel, hs]

/-- When the overlap is strictly below the size, one more unit of fuel
than needed changes nothing: the loop stops because `start` passed the
word count, not because fuel ran out. This discharges the fuelled model
against the source's unfuelled `while` loop for every claim assuming
`overlap < size`. -/
theorem chunkFromFuel_fuel_stable (words : List String) (source : String)
    (size overlap : Nat) :
    ∀ (fuel start : Nat) (acc : List Chunk),
      words.length - start ≤ fuel * (size - overlap) →
      chunkFromFuel words source size overlap (fuel + 1) start acc =
        chunkFromFuel words source size overlap fuel start acc := by
  intro fuel
  induction fuel with
  | zero =>
    intro start acc hb
    have hs : ¬ start < words.length := by
      simp only [Nat.zero_mul] at hb
      omega
    rw [chunkFromFuel_stop words source size overlap 0 start acc hs,
      chunkFromFuel_zero]
  | succ fuel ih =>
    intro start acc hb
    by_cases hs : start < words.length
    · rw [chunkFromFuel_step words source size overlap (fuel + 1) start acc hs,
        chunkFromFuel_step words source size overlap fuel start acc hs]
      apply ih
      rw [Nat.succ_mul] at hb
      omega
    · rw [chunkFromFuel_stop words source size overlap (fuel + 1) start acc hs,
        chunkFromFuel_stop words source size overlap fuel start acc hs]

/-- The invariants of the chunking loop: consecutive indices from 0,
starts in arithmetic progression with step `size - overlap`, and each
recorded chunk holding the words `words[start_word : start_word + size]`
with `end_word = min(start_word + size, len(words))`. -/
theorem chunkFromFuel_spec (words : List String) (source : String)
    (size overlap : Nat) :
    ∀ (fuel start : Nat) (acc : List Chunk),
      acc.map Chunk.chunk_index = List.range acc.length →
      List.Chain' (fun a b => b.start_word = a.start_word + (size - overlap))
        acc →
      (∀ x ∈ acc.getLast?, start = x.start_word + (size - overlap)) →
      (∀ c ∈ acc,
        c.end_word = min (c.start_word + size) words.length ∧
        c.text = String.intercalate " " ((words.drop c.start_word).take size) ∧
        ((words.drop c.start_word).take size).length ≤ size) →
      ((chunkFromFuel words source size overlap fuel start acc).map
          Chunk.chunk_index =
        List.range
          (chunkFromFuel words source size overlap fuel start acc).length) ∧
      List.Chain' (fun a b => b.start_word = a.start_word + (size - overlap))
        (chunkFromFuel words source size overlap fuel start acc) ∧
      ∀ c ∈ chunkFromFuel words source size overlap fuel start acc,
        c.end_word = min (c.start_word + size) words.length ∧
        c.text = String.intercalate " " ((words.drop c.start_word).take size) ∧
        ((words.drop c.start_word).take size).length ≤ size := by
  intro fuel
  induction fuel with
  | zero =>
    intro start acc h1 h2 _ h4
    exact ⟨h1, h2, h4⟩
  | succ fuel ih =>
    intro start acc h1 h2 h3 h4
    by_cases hs : start < words.length
    · rw [chunkFromFuel_step words source size overlap fuel start acc hs]
      set c : Chunk :=
        ⟨String.intercalate " " ((words.drop start).take size), source,
          acc.length, start, min (start + size) words.length⟩ with hc
      apply ih
      · rw [List.map_append, h1, List.length_append]
        simp [List.range_succ]
      · rw [List.chain'_append]
        refine ⟨h2, List.chain'_singleton c, ?_⟩
        intro x hx y hy
        simp only [List.head?_cons, Option.mem_def, Option.some.injEq] at hy
        rw [← hy]
        exact h3 x hx
      · intro x hx
        rw [List.getLast?_concat] at hx
        simp only [Option.mem_def, Option.some.injEq] at hx
        rw [← hx]
      · intro ch hch
        rcases List.mem_append.mp hch with hch | hch
        · exact h4 ch hch
        · simp only [List.mem_singleton] at hch
          subst hch
          refine ⟨rfl, rfl, ?_⟩
          rw [List.length_take]
          exact min_le_left _ _
    · rw [chunkFromFuel_stop words source size overlap fuel start acc hs]
      exact ⟨h1, h2, h4⟩

/-- With `overlap < size`, the fuel `_chunk_text` is given is more than
the loop ever consumes: one extra unit changes nothing, so the fuelled
model coincides with the source's terminating `while` loop. -/
theorem chunk_text_fuel_sufficient (text source : String)
    (size overlap : Nat) (h : overlap < size) :
    chunkFromFuel (pySplit text) source size overlap
        ((pySplit text).length + 1) 0 [] =
      chunk_text text source size overlap := by
  unfold chunk_text
  apply chunkFromFuel_fuel_stable
  have hd : 0 < size - overlap := by omega
  calc (pySplit text).length - 0 = (pySplit text).length := by omega
    _ ≤ (pySplit text).length * (size - overlap) :=
        Nat.le_mul_of_pos_right _ hd

/-- C9: for every input text, provided the overlap is strictly below the
chunk size, the chunker returns an ordered sequence of chunks whose
indices are consecutively 0, 1, 2, …; each chunk starts exactly
`size - overlap` words after the previous one; each chunk's text is the
word slice `words[start_word : start_word + size]` joined by spaces,
holding at most `size` words; and each records
`end_word = min(start_word + size, total word count)`. Termination of the
source loop under the same hypothesis is witnessed by
`chunk_text_fuel_sufficient`. -/
theorem chunking_spec (text source : String) (size overlap : Nat)
    (h : overlap < size) :
    ((chunk_text text source size overlap).map Chunk.chunk_index =
      List.range (chunk_text text source size overlap).length) ∧
    List.Chain' (fun a b => b.start_word = a.start_word + (size - overlap))
      (chunk_text text source size overlap) ∧
    ∀ c ∈ chunk_text text source size overlap,
      c.end_word = min (c.start_word + size) (pySplit text).length ∧
      c.text =
        String.intercalate " " (((pySplit text).drop c.start_word).take size) ∧
      (((pySplit text).drop c.start_word).take size).length ≤ size := by
  unfold chunk_text
  exact chunkFromFuel_spec (pySplit text) source size overlap
    (pySplit text).length 0 [] (by simp) (List.chain'_nil) (by simp) (by simp)

/-- Witness for `chunking_spec`: the five-word text "a b c d e" with
chunk size 3 and overlap 1 (1 < 3); the loop produces chunks starting at
words 0, 2 and 4. -/
theorem chunking_spec_witness :
    1 < 3 ∧
    (((chunk_text "a b c d e" "doc" 3 1).map Chunk.chunk_index =
        List.range (chunk_text "a b c d e" "doc" 3 1).length) ∧
      List.Chain' (fun a b => b.start_word = a.start_word + (3 - 1))
        (chunk_text "a b c d e" "doc" 3 1) ∧
      ∀ c ∈ chunk_text "a b c d e" "doc" 3 1,
        c.end_word = min (c.start_word + 3) (pySplit "a b c d e").length ∧
        c.text =
          String.intercalate " "
            (((pySplit "a b c d e").drop c.start_word).take 3) ∧
        (((pySplit "a b c d e").drop c.start_word).take 3).length ≤ 3) :=
  ⟨by decide, chunking_spec "a b c d e" "doc" 3 1 (by decide)⟩

/-! ### The agent turn loop -/

/-- Exhausted fuel: the loop has completed all its passes and yields the
sentinel (CoeusModel.py line 148) with no state change. -/
theorem chatLoop_fuel_zero (env : InferenceEnv) (u : String) (now : Nat)
    (c : Coeus) (callIdx : Nat) (messages : List Message) :
    chatLoop env u now c callIdx messages 0 =
      { chunks := ["[Max tool iterations reached]"]
      , state := c, raised := none
      , streamingCalls := 0, nonStreamingCalls := 0 } := rfl

/-- An iteration whose inference call raises: the exception escapes with
no chunk and no state change. -/
theorem chatLoop_error (env : InferenceEnv) (u : String) (now : Nat)
    (c : Coeus) (callIdx fuel : Nat) (messages : List Message) (e : String)
    (he : env.respond callIdx = Except.error e) :
    chatLoop env u now c callIdx messages (fuel + 1) =
      { chunks := [], state := c, raised := some e
      , streamingCalls := 0, nonStreamingCalls := 1 } := by
  simp [chatLoop, he]

/-- An iteration whose response carries tool calls: the tool exchanges are
appended to the message list and the loop continues with one more
non-streaming call on the books. -/
theorem chatLoop_toolcalls (env : InferenceEnv) (u : String) (now : Nat)
    (c : Coeus) (callIdx fuel : Nat) (messages : List Message)
    (m : ModelMessage) (hm : env.respond callIdx = Except.ok m)
    (hne : m.tool_calls ≠ []) :
    chatLoop env u now c callIdx messages (fuel + 1) =
      { chatLoop env u now c (callIdx + 1)
          (processToolCalls c.tools m.tool_calls messages) fuel with
        nonStreamingCalls :=
          (chatLoop env u now c (callIdx + 1)
            (processToolCalls c.tools m.tool_calls messages)
            fuel).nonStreamingCalls + 1 } := by
  have hie : m.tool_calls.isEmpty = false := by
    rcases hl : m.tool_calls with _ | ⟨a, l⟩
    · exact absurd hl hne
    · rfl
  simp [chatLoop, hm, hie]

/-- An iteration whose response carries no tool calls: the loop ends this
turn through one of the two final exits described by `finalStep`. -/
theorem chatLoop_final_iteration (env : InferenceEnv) (u : String)
    (now : Nat) (c : Coeus) (callIdx fuel : Nat) (messages : List Message)
    (m : ModelMessage) (hm : env.respond callIdx = Except.ok m)
    (hnil : m.tool_calls = []) :
    chatLoop env u now c callIdx messages (fuel + 1) =
      finalStep (env.respond callIdx) c u now := by
  simp only [chatLoop, hm, hnil, List.isEmpty_nil, if_true, finalStep]

/-- `finalStep` always books exactly one non-streaming call, so setting
that field to 1 is the identity. -/
theorem finalStep_set_ns (resp : Except String ModelMessage) (c : Coeus)
    (u : String) (now : Nat) :
    { finalStep resp c u now with nonStreamingCalls := 1 } =
      finalStep resp c u now := by
  cases resp with
  | error e => rfl
  | ok m =>
    cases hb : (m.content == "") with
    | true => simp [finalStep, hb]
    | false => simp [finalStep, hb]

/-- Unfolding `Coeus.chat` in the tooled case: after the user turn is
appended, the loop runs from call index 0 with the hard-coded cap. -/
theorem chat_tooled (c : Coeus) (env : InferenceEnv) (message : String)
    (now : Nat) (htools : c.tools.has_tools = true) :
    c.chat env message now =
      chatLoop env message now
        { c with
          conversation_history :=
            addToHistory c.conversation_history c.max_history_turns
              "user" message }
        0
        (⟨"system", env.systemPrompt message, []⟩ ::
          addToHistory c.conversation_history c.max_history_turns
            "user" message)
        max_iterations := by
  have hcond : ({ c with
      conversation_history :=
        addToHistory c.conversation_history c.max_history_turns
          "user" message } : Coeus).tools.has_tools = true := htools
  simp only [Coeus.chat, hcond, if_true]

/-- A loop whose every response carries tool calls exhausts the fuel:
each pass issues a non-streaming call, and orchestrator state is never
touched — the sentinel is the only chunk. -/
theorem chatLoop_all_toolcalls (env : InferenceEnv) (u : String)
    (now : Nat) (c : Coeus) :
    ∀ (fuel callIdx : Nat) (messages : List Message),
      (∀ i < fuel, isToolResp (env.respond (callIdx + i))) →
      chatLoop env u now c callIdx messages fuel =
        { chunks := ["[Max tool iterations reached]"]
        , state := c, raised := none
        , streamingCalls := 0, nonStreamingCalls := fuel } := by
  intro fuel
  induction fuel with
  | zero =>
    intro callIdx messages _
    exact chatLoop_fuel_zero env u now c callIdx messages
  | succ fuel ih =>
    intro callIdx messages hall
    rcases hall 0 (Nat.succ_pos fuel) with ⟨m, hm, hne⟩
    rw [Nat.add_zero] at hm
    have hshift : ∀ i < fuel, isToolResp (env.respond (callIdx + 1 + i)) := by
      intro i hi
      have h2 := hall (i + 1) (by omega)
      have he : callIdx + (i + 1) = callIdx + 1 + i := by omega
      rwa [he] at h2
    rw [chatLoop_toolcalls env u now c callIdx fuel messages m hm hne,
      ih (callIdx + 1) (processToolCalls c.tools m.tool_calls messages)
        hshift]

/-- A loop seeing `k` tool-call responses followed by a non-tool-call
response ends through `finalStep` on that response, with `k + 1`
non-streaming calls on the books, provided the cap is not yet reached. -/
theorem chatLoop_final_after (env : InferenceEnv) (u : String) (now : Nat)
    (c : Coeus) :
    ∀ (k fuel callIdx : Nat) (messages : List Message),
      k < fuel →
      (∀ i < k, isToolResp (env.respond (callIdx + i))) →
      ¬ isToolResp (env.respond (callIdx + k)) →
      chatLoop env u now c callIdx messages fuel =
        { finalStep (env.respond (callIdx + k)) c u now with
          nonStreamingCalls := k + 1 } := by
  intro k
  induction k with
  | zero =>
    intro fuel callIdx messages hkf hall hfin
    rcases fuel with _ | fuel
    · omega
    simp only [Nat.add_zero] at hfin ⊢
    rcases hr : env.respond callIdx with e | m
    · rw [chatLoop_error env u now c callIdx fuel messages e hr]
      rfl
    · have hnil : m.tool_calls = [] := by
        by_contra hne
        exact hfin ⟨m, hr, hne⟩
      rw [chatLoop_final_iteration env u now c callIdx fuel messages m hr
        hnil, hr]
      exact (finalStep_set_ns (Except.ok m) c u now).symm
  | succ k ihk =>
    intro fuel callIdx messages hkf hall hfin
    rcases fuel with _ | fuel
    · omega
    rcases hall 0 (Nat.succ_pos k) with ⟨m, hm, hne⟩
    rw [Nat.add_zero] at hm
    have hshift : ∀ i < k, isToolResp (env.respond (callIdx + 1 + i)) := by
      intro i hi
      have h2 := hall (i + 1) (by omega)
      have he : callIdx + (i + 1) = callIdx + 1 + i := by omega
      rwa [he] at h2
    have hidx : callIdx + 1 + k = callIdx + (k + 1) := by omega
    have hfin2 : ¬ isToolResp (env.respond (callIdx + 1 + k)) := by
      rwa [hidx]
    rw [chatLoop_toolcalls env u now c callIdx fuel messages m hm hne,
      ihk fuel (callIdx + 1)
        (processToolCalls c.tools m.tool_calls messages) (by omega) hshift
        hfin2, hidx]

/-- Whenever the loop lets an exception escape, no chunk was yielded and
the orchestrator state it started the loop with is untouched. -/
theorem chatLoop_raised (env : InferenceEnv) (u : String) (now : Nat)
    (c : Coeus) :
    ∀ (fuel callIdx : Nat) (messages : List Message) (e : String),
      (chatLoop env u now c callIdx messages fuel).raised = some e →
      (chatLoop env u now c callIdx messages fuel).chunks = [] ∧
      (chatLoop env u now c callIdx messages fuel).state = c := by
  intro fuel
  induction fuel with
  | zero =>
    intro callIdx messages e h
    rw [chatLoop_fuel_zero] at h
    exact absurd h (by simp)
  | succ fuel ih =>
    intro callIdx messages e h
    rcases hr : env.respond callIdx with e2 | m
    · rw [chatLoop_error env u now c callIdx fuel messages e2 hr]
      exact ⟨rfl, rfl⟩
    · rcases hl : m.tool_calls with _ | ⟨a, l⟩
      · rw [chatLoop_final_iteration env u now c callIdx fuel messages m hr
          hl] at h ⊢
        rw [hr] at h ⊢
        simp only [finalStep] at h ⊢
        cases hb : (m.content == "") with
        | true =>
          rw [hb] at h
          exact absurd h (by simp)
        | false =>
          rw [hb] at h
          exact absurd h (by simp)
      · have hne : m.tool_calls ≠ [] := by rw [hl]; simp
        rw [chatLoop_toolcalls env u now c callIdx fuel messages m hr hne]
          at h ⊢
        exact ih (callIdx + 1)
          (processToolCalls c.tools m.tool_calls messages) e h

/-- C1 counterexample: with one registered tool and an inference service
raising "boom", `chat` from an EMPTY pre-call history propagates the
error as a turn-level failure, but the rolling history is not left in its
pre-call state: the user turn appended at line 102, before the inference
call, remains in it. -/
theorem inference_error_pre_call_history_counterexample :
    (sampleCoeus.chat envError "hi" 0).raised = some "boom" ∧
    sampleCoeus.conversation_history = [] ∧
    (sampleCoeus.chat envError "hi" 0).state.conversation_history =
      [⟨"user", "hi", []⟩] ∧
    (sampleCoeus.chat envError "hi" 0).state.conversation_history ≠
      sampleCoeus.conversation_history := by
  refine ⟨rfl, rfl, rfl, ?_⟩
  intro h
  rw [show (sampleCoeus.chat envError "hi" 0).state.conversation_history =
    [(⟨"user", "hi", []⟩ : Message)] from rfl] at h
  exact List.cons_ne_nil _ _ (h.trans rfl)

/-- C1 amended: with tools registered, an inference-service error at any
loop iteration propagates to the caller as a turn-level failure: no chunk
is yielded, no assistant or tool turn is appended and the memory is
untouched — but the history is NOT its pre-call state: it equals the
pre-call state extended by exactly the user turn, which `chat` appends
before the first inference call. -/
theorem inference_error_turn_failure (c : Coeus) (env : InferenceEnv)
    (message : String) (now : Nat) (e : String)
    (htools : c.tools.has_tools = true)
    (hraised : (c.chat env message now).raised = some e) :
    (c.chat env message now).chunks = [] ∧
    (c.chat env message now).state.conversation_history =
      addToHistory c.conversation_history c.max_history_turns
        "user" message ∧
    (c.chat env message now).state.memory = c.memory := by
  rw [chat_tooled c env message now htools] at hraised ⊢
  rcases chatLoop_raised env message now _ max_iterations 0 _ e hraised
    with ⟨hchunks, hstate⟩
  exact ⟨hchunks, by rw [hstate], by rw [hstate]⟩

/-- Witness for `inference_error_turn_failure` at the sample orchestrator
and the always-raising service. -/
theorem inference_error_turn_failure_witness :
    sampleCoeus.tools.has_tools = true ∧
    (sampleCoeus.chat envError "hi" 0).raised = some "boom" ∧
    ((sampleCoeus.chat envError "hi" 0).chunks = [] ∧
      (sampleCoeus.chat envError "hi" 0).state.conversation_history =
        addToHistory sampleCoeus.conversation_history
          sampleCoeus.max_history_turns "user" "hi" ∧
      (sampleCoeus.chat envError "hi" 0).state.memory =
        sampleCoeus.memory) :=
  ⟨rfl, rfl,
    inference_error_turn_failure sampleCoeus envError "hi" 0 "boom" rfl rfl⟩

/-- C2 counterexample: with one registered tool and a first non-streaming
response carrying no tool calls and content "hello", `chat` performs NO
streaming call at all — the claimed second, streaming re-issue does not
happen; the final answer is emitted as the single chunk "hello" taken
directly from the non-streaming response. -/
theorem streaming_reissue_counterexample :
    ¬ 0 < (sampleCoeus.chat envContent "hi" 0).streamingCalls ∧
    (sampleCoeus.chat envContent "hi" 0).chunks = ["hello"] ∧
    (sampleCoeus.chat envContent "hi" 0).nonStreamingCalls = 1 := by
  refine ⟨?_, rfl, rfl⟩
  decide

/-- C2 amended: with tools registered, when the `k`-th non-streaming
completion (after `k` tool-call rounds, `k` below the cap) returns a
message with no tool calls and non-empty content, the orchestrator emits
that content as a single chunk taken directly from the non-streaming
response — it does NOT re-issue the call in streaming mode (zero
streaming calls) — and accumulates it as the full text: the assistant
turn is appended to the history and the exchange recorded in memory. -/
theorem final_content_direct_chunk (c : Coeus) (env : InferenceEnv)
    (message : String) (now : Nat) (k : Nat) (m : ModelMessage)
    (htools : c.tools.has_tools = true)
    (hk : k < max_iterations)
    (hall : ∀ i < k, isToolResp (env.respond i))
    (hm : env.respond k = Except.ok m)
    (hnil : m.tool_calls = [])
    (hcontent : m.content ≠ "") :
    (c.chat env message now).chunks = [m.content] ∧
    (c.chat env message now).streamingCalls = 0 ∧
    (c.chat env message now).nonStreamingCalls = k + 1 ∧
    (c.chat env message now).raised = none ∧
    (c.chat env message now).state.conversation_history =
      addToHistory
        (addToHistory c.conversation_history c.max_history_turns
          "user" message)
        c.max_history_turns "assistant" m.content ∧
    (c.chat env message now).state.memory =
      c.memory.add_memory now message m.content none := by
  have hfin : ¬ isToolResp (env.respond (0 + k)) := by
    rw [Nat.zero_add]
    rintro ⟨m2, hm2, hne2⟩
    rw [hm] at hm2
    injection hm2 with hmm
    exact hne2 (hmm ▸ hnil)
  rw [chat_tooled c env message now htools,
    chatLoop_final_after env message now _ k max_iterations 0 _ hk
      (fun i hi => by rw [Nat.zero_add]; exact hall i hi) hfin,
    Nat.zero_add, hm]
  have hbeq : (m.content == "") = false := beq_eq_false_iff_ne.mpr hcontent
  simp [finalStep, hbeq]

/-- Witness for `final_content_direct_chunk` at the sample orchestrator,
the content-returning service and `k = 0`. -/
theorem final_content_direct_chunk_witness :
    sampleCoeus.tools.has_tools = true ∧ 0 < max_iterations ∧
    envContent.respond 0 = Except.ok ⟨[], "hello"⟩ ∧
    ("hello" : String) ≠ "" ∧
    ((sampleCoeus.chat envContent "hi" 0).chunks = ["hello"] ∧
      (sampleCoeus.chat envContent "hi" 0).streamingCalls = 0 ∧
      (sampleCoeus.chat envContent "hi" 0).nonStreamingCalls = 0 + 1 ∧
      (sampleCoeus.chat envContent "hi" 0).raised = none ∧
      (sampleCoeus.chat envContent "hi" 0).state.conversation_history =
        addToHistory
          (addToHistory sampleCoeus.conversation_history
            sampleCoeus.max_history_turns "user" "hi")
          sampleCoeus.max_history_turns "assistant" "hello" ∧
      (sampleCoeus.chat envContent "hi" 0).state.memory =
        sampleCoeus.memory.add_memory 0 "hi" "hello" none) :=
  ⟨rfl, by decide, rfl, by decide,
    final_content_direct_chunk sampleCoeus envContent "hi" 0 0 ⟨[], "hello"⟩
      rfl (by decide) (fun i hi => absurd hi (Nat.not_lt_zero i)) rfl rfl
      (by decide)⟩

/-- C3: with tools registered and an inference service that always
returns a tool-call response, `chat` performs exactly `max_iterations`
(the hard-coded 10) non-streaming inference iterations, then terminates
by yielding the single sentinel "[Max tool iterations reached]"; it
performs zero streaming calls, raises nothing, and the aborted turn is
recorded neither as an assistant entry in the rolling history (only the
user turn was appended) nor as a memory record (the memory is exactly
the pre-call one). -/
theorem iteration_cap_sentinel (c : Coeus) (env : InferenceEnv)
    (message : String) (now : Nat)
    (htools : c.tools.has_tools = true)
    (hall : ∀ i, isToolResp (env.respond i)) :
    (c.chat env message now).chunks = ["[Max tool iterations reached]"] ∧
    (c.chat env message now).nonStreamingCalls = max_iterations ∧
    (c.chat env message now).streamingCalls = 0 ∧
    (c.chat env message now).raised = none ∧
    (c.chat env message now).state.conversation_history =
      addToHistory c.conversation_history c.max_history_turns
        "user" message ∧
    (c.chat env message now).state.memory = c.memory := by
  rw [chat_tooled c env message now htools,
    chatLoop_all_toolcalls env message now _ max_iterations 0 _
      (fun i _ => hall (0 + i))]
  exact ⟨rfl, rfl, rfl, rfl, rfl, rfl⟩

/-- Witness for `iteration_cap_sentinel` at the sample orchestrator and
the always-tool-calling service. -/
theorem iteration_cap_sentinel_witness :
    sampleCoeus.tools.has_tools = true ∧
    (∀ i, isToolResp (envAlwaysTool.respond i)) ∧
    ((sampleCoeus.chat envAlwaysTool "hi" 0).chunks =
        ["[Max tool iterations reached]"] ∧
      (sampleCoeus.chat envAlwaysTool "hi" 0).nonStreamingCalls =
        max_iterations ∧
      (sampleCoeus.chat envAlwaysTool "hi" 0).streamingCalls = 0 ∧
      (sampleCoeus.chat envAlwaysTool "hi" 0).raised = none ∧
      (sampleCoeus.chat envAlwaysTool "hi" 0).state.conversation_history =
        addToHistory sampleCoeus.conversation_history
          sampleCoeus.max_history_turns "user" "hi" ∧
      (sampleCoeus.chat envAlwaysTool "hi" 0).state.memory =
        sampleCoeus.memory) :=
  ⟨rfl, fun i => ⟨⟨[⟨"t", []⟩], ""⟩, rfl, by simp⟩,
    iteration_cap_sentinel sampleCoeus envAlwaysTool "hi" 0 rfl
      (fun i => ⟨⟨[⟨"t", []⟩], ""⟩, rfl, by simp⟩)⟩

/-- C10: with tools registered, when the `k`-th non-streaming completion
(after `k` tool-call rounds, `k` below the cap) is a final message with
EMPTY content, the generator returns without yielding any chunk, raises
nothing, appends no assistant turn — the history is exactly the pre-call
history extended by the user turn appended at the start of the call —
and creates no memory record. -/
theorem empty_final_content_silent_return (c : Coeus) (env : InferenceEnv)
    (message : String) (now : Nat) (k : Nat) (m : ModelMessage)
    (htools : c.tools.has_tools = true)
    (hk : k < max_iterations)
    (hall : ∀ i < k, isToolResp (env.respond i))
    (hm : env.respond k = Except.ok m)
    (hnil : m.tool_calls = [])
    (hempty : m.content = "") :
    (c.chat env message now).chunks = [] ∧
    (c.chat env message now).streamingCalls = 0 ∧
    (c.chat env message now).raised = none ∧
    (c.chat env message now).state.conversation_history =
      addToHistory c.conversation_history c.max_history_turns
        "user" message ∧
    (c.chat env message now).state.memory = c.memory := by
  have hfin : ¬ isToolResp (env.respond (0 + k)) := by
    rw [Nat.zero_add]
    rintro ⟨m2, hm2, hne2⟩
    rw [hm] at hm2
    injection hm2 with hmm
    exact hne2 (hmm ▸ hnil)
  rw [chat_tooled c env message now htools,
    chatLoop_final_after env message now _ k max_iterations 0 _ hk
      (fun i hi => by rw [Nat.zero_add]; exact hall i hi) hfin,
    Nat.zero_add, hm]
  have hbeq : (m.content == "") = true := beq_iff_eq.mpr hempty
  simp [finalStep, hbeq]

/-- Witness for `empty_final_content_silent_return` at the sample
orchestrator, the empty-content service and `k = 0`. -/
theorem empty_final_content_silent_return_witness :
    sampleCoeus.tools.has_tools = true ∧ 0 < max_iterations ∧
    envEmpty.respond 0 = Except.ok ⟨[], ""⟩ ∧
    ((sampleCoeus.chat envEmpty "hi" 0).chunks = [] ∧
      (sampleCoeus.chat envEmpty "hi" 0).streamingCalls = 0 ∧
      (sampleCoeus.chat envEmpty "hi" 0).raised = none ∧
      (sampleCoeus.chat envEmpty "hi" 0).state.conversation_history =
        addToHistory sampleCoeus.conversation_history
          sampleCoeus.max_history_turns "user" "hi" ∧
      (sampleCoeus.chat envEmpty "hi" 0).state.memory =
        sampleCoeus.memory) :=
  ⟨rfl, by decide, rfl,
    empty_final_content_silent_return sampleCoeus envEmpty "hi" 0 0
      ⟨[], ""⟩ rfl (by decide) (fun i hi => absurd hi (Nat.not_lt_zero i))
      rfl rfl rfl⟩

/-- Witness for `dispatchBatch_one_failure_isolated`: the three-tool
sample registry, with the raising handler "b" exercised both as the
FIRST call of a batch (order b, a, c) and as the SECOND (order a, b, c);
in each run the mapping holds the two successes and the one error entry
in the raiser's position. -/
theorem dispatchBatch_one_failure_isolated_witness :
    (("b" : String) ≠ "a" ∧ ("b" : String) ≠ "c" ∧ ("a" : String) ≠ "c") ∧
    sampleBatchRegistry.execute_tools_parallel
        [⟨"b", []⟩, ⟨"a", []⟩, ⟨"c", []⟩] =
      [("b", errObj "boom"), ("a", Value.str "ra"),
        ("c", Value.str "rc")] ∧
    sampleBatchRegistry.execute_tools_parallel
        [⟨"a", []⟩, ⟨"b", []⟩, ⟨"c", []⟩] =
      [("a", Value.str "ra"), ("b", errObj "boom"),
        ("c", Value.str "rc")] := by
  refine ⟨⟨by decide, by decide, by decide⟩, ?_, ?_⟩
  · rcases dispatchBatch_one_failure_isolated sampleBatchRegistry
      ⟨"b", []⟩ ⟨"a", []⟩ ⟨"c", []⟩
      ⟨"b", "", [], fun _ => Except.error "boom", []⟩
      ⟨"a", "", [], fun _ => Except.ok (Value.str "ra"), []⟩
      ⟨"c", "", [], fun _ => Except.ok (Value.str "rc"), []⟩
      (Value.str "ra") (Value.str "rc") "boom"
      (by decide) (by decide) (by decide) rfl rfl rfl
      (Or.inl ⟨rfl, rfl, rfl⟩)
      with ⟨h1, heq⟩ | ⟨h2, heq⟩ | ⟨h3, heq⟩
    · exact heq
    · exact absurd h2 (by simp)
    · exact absurd h3 (by simp)
  · rcases dispatchBatch_one_failure_isolated sampleBatchRegistry
      ⟨"a", []⟩ ⟨"b", []⟩ ⟨"c", []⟩
      ⟨"a", "", [], fun _ => Except.ok (Value.str "ra"), []⟩
      ⟨"b", "", [], fun _ => Except.error "boom", []⟩
      ⟨"c", "", [], fun _ => Except.ok (Value.str "rc"), []⟩
      (Value.str "ra") (Value.str "rc") "boom"
      (by decide) (by decide) (by decide) rfl rfl rfl
      (Or.inr (Or.inl ⟨rfl, rfl, rfl⟩))
      with ⟨h1, heq⟩ | ⟨h2, heq⟩ | ⟨h3, heq⟩
    · exact absurd h1 (by simp)
    · exact heq
    · exact absurd h3 (by simp)
